import Mathlib

/-!
Verification of the RBAC and multi-tenant query-scoping core of a
legal-practice-management backend.

The definitions below are a shallow embedding of the Python source:

* `backend/accounts/permissions.py` — permission evaluation
  (`_permission_codes`, `has_permission`, `has_permissions`,
  `has_any_permission`, `PermissionRequirement`, `RBACPermission`,
  `restrict_matters_queryset`, `restrict_related_queryset`);
* `backend/config/tenancy.py` — `OrganizationScopedQuerySetMixin.get_queryset`
  and `OrganizationModelViewSet.get_required_permissions`;
* `backend/accounts/rbac.py` — the permission/role catalog and
  `sync_organization_roles`;
* `backend/core/middleware.py` — the tenant-context middleware that sets
  `request.organization_id`;
* `backend/portal/views.py` — the `DocumentViewSet` registration.

Database rows are modelled as Lean structures, querysets as lists of rows,
Django's `is_authenticated` dichotomy (real `User` vs `AnonymousUser`/missing)
as the inductive `Principal`, and the per-request memoised permission sets as
the pure functions they memoise.
-/

namespace LegalTech

/-- A role held by a user, carrying its granted permission codenames
(the `Role.permissions` many-to-many, read through
`user.roles.values_list("permissions__codename", flat=True)`). -/
structure RoleRec where
  name : String
  perms : List String
  deriving DecidableEq, Repr

/-- A real (database-backed) Django user: `User.id`, `User.organization_id`
(read with `getattr(user, "organization_id", None)`, hence optional), the
roles relation, and the optional reverse one-to-one `client_profile`
(identified by the linked `Client` row's id). -/
structure UserRec where
  id : Nat
  organizationId : Option Nat
  roles : List RoleRec
  clientProfileId : Option Nat
  deriving DecidableEq, Repr

/-- The calling principal: either a real user (for which Django's
`is_authenticated` is always `True`) or `AnonymousUser` / a missing user
(for which `getattr(user, "is_authenticated", False)` is `False` and all
attribute lookups used by the core fall back to their defaults). -/
inductive Principal where
  | anonymous
  | user (u : UserRec)
  deriving DecidableEq, Repr

/-- Django's `is_authenticated`: `True` exactly for real users. -/
def Principal.is_authenticated : Principal → Bool
  | .anonymous => false
  | .user _ => true

/-- Embeds `getattr(user, "organization_id", None)`. -/
def Principal.organizationId : Principal → Option Nat
  | .anonymous => none
  | .user u => u.organizationId

/-- Embeds `getattr(user, "client_profile", None)`. -/
def Principal.clientProfileId : Principal → Option Nat
  | .anonymous => none
  | .user u => u.clientProfileId

/-- Embeds `_role_names` (accounts/permissions.py): the set of names of the
principal's roles; empty for unauthenticated principals. -/
def role_names (p : Principal) : List String :=
  match p with
  | .anonymous => []
  | .user u => u.roles.map RoleRec.name

/-- Embeds `_permission_codes` (accounts/permissions.py): the union over all held
roles of their permission codenames; empty for unauthenticated principals.
The source memoises this set on the user object; we model the memoised
computation. -/
def permission_codes (p : Principal) : List String :=
  match p with
  | .anonymous => []
  | .user u => (u.roles.map RoleRec.perms).flatten

/-- Embeds `is_client_user` (accounts/permissions.py). -/
def is_client_user (p : Principal) : Bool :=
  p.is_authenticated && (role_names p).contains "Client"

/-- Embeds `has_permission` (accounts/permissions.py): vacuously true for a falsy
(empty) code, else a membership test in the memoised permission set. -/
def has_permission (p : Principal) (c : String) : Bool :=
  if c = "" then true else (permission_codes p).contains c

/-- Embeds `has_permissions` (accounts/permissions.py): the required set is the
given codes with falsy (empty) entries dropped; vacuously true when that
set is empty, else a subset test. -/
def has_permissions (p : Principal) (cs : List String) : Bool :=
  let required := cs.filter (fun c => c ≠ "")
  if required.isEmpty then true
  else required.all (fun c => (permission_codes p).contains c)

/-- Embeds `has_any_permission` (accounts/permissions.py): options are the given
codes with falsy entries dropped; vacuously true when empty, else an
intersection test. -/
def has_any_permission (p : Principal) (cs : List String) : Bool :=
  let options := cs.filter (fun c => c ≠ "")
  if options.isEmpty then true
  else options.any (fun c => (permission_codes p).contains c)

/-- Embeds `PermissionRequirement` (accounts/permissions.py): an action's access
rule as an `all` clause and an `any` clause of permission codes. -/
structure PermissionRequirement where
  all : List String
  any : List String
  deriving DecidableEq, Repr

/-- Embeds `PermissionRequirement.is_satisfied`: false for a missing or
unauthenticated principal; otherwise the truthy `all` clause must pass
`has_permissions` and the truthy `any` clause must pass
`has_any_permission`. -/
def PermissionRequirement.is_satisfied (req : PermissionRequirement) (p : Principal) : Bool :=
  if !p.is_authenticated then false
  else if !req.all.isEmpty && !has_permissions p req.all then false
  else if !req.any.isEmpty && !has_any_permission p req.any then false
  else true

/-- A `Matter` row (matters/models.py) as consumed by the scoping filter:
its organization and client foreign keys, the optional `lead_lawyer`
reference, and the user ids appearing in its `access_list`
(`MatterAccess` rows). -/
structure MatterRow where
  id : Nat
  organizationId : Nat
  clientId : Nat
  leadLawyerId : Option Nat
  accessUserIds : List Nat
  deriving DecidableEq, Repr

/-- Embeds `Q(lead_lawyer=user)`: true when the row's lead lawyer is the (real)
requesting user; an anonymous principal matches no row. -/
def leadLawyerMatch (p : Principal) (r : MatterRow) : Bool :=
  match p with
  | .anonymous => false
  | .user u => r.leadLawyerId = some u.id

/-- Embeds `Q(access_list__user=user)`: true when the user appears in the row's
access-grant list. -/
def accessListMatch (p : Principal) (r : MatterRow) : Bool :=
  match p with
  | .anonymous => false
  | .user u => r.accessUserIds.contains u.id

/-- Embeds `restrict_matters_queryset` (accounts/permissions.py): bypass holders
see the whole (already organization-filtered) queryset; principals with a
linked client profile see their client's matters; otherwise rows where the
principal is lead lawyer or holds an access grant, deduplicated
(`.distinct()`). -/
def restrict_matters_queryset (qs : List MatterRow) (p : Principal)
    (bypassPermission : String) : List MatterRow :=
  if has_permission p bypassPermission then qs
  else
    match p.clientProfileId with
    | some cid => qs.filter (fun r => r.clientId = cid)
    | none => (qs.filter (fun r => leadLawyerMatch p r || accessListMatch p r)).dedup

/-- A row of a resource holding a foreign key to a matter (e.g. a document,
time entry or deadline), as consumed by `restrict_related_queryset`: its
own organization id and `client_visible` flag, plus the ownership data of
the matter reached through `related_field`. -/
structure RelatedRow where
  id : Nat
  organizationId : Nat
  relatedClientId : Nat
  relatedLeadLawyerId : Option Nat
  relatedAccessUserIds : List Nat
  clientVisible : Bool
  deriving DecidableEq, Repr

/-- Embeds `Q(**{f"{related_field}__lead_lawyer": user})` on a related row. -/
def relatedLeadLawyerMatch (p : Principal) (r : RelatedRow) : Bool :=
  match p with
  | .anonymous => false
  | .user u => r.relatedLeadLawyerId = some u.id

/-- Embeds `Q(**{f"{related_field}__access_list__user": user})` on a related row. -/
def relatedAccessListMatch (p : Principal) (r : RelatedRow) : Bool :=
  match p with
  | .anonymous => false
  | .user u => r.relatedAccessUserIds.contains u.id

/-- Embeds `restrict_related_queryset` (accounts/permissions.py): bypass holders
see the whole queryset; client-profile principals see rows whose parent
matter belongs to their client, AND'd with `client_visible` when the row
policy demands it; otherwise lead-lawyer or access-grant rows (again AND'd
with visibility when demanded), deduplicated. -/
def restrict_related_queryset (qs : List RelatedRow) (p : Principal)
    (bypassPermission : String) (clientVisibleOnly : Bool) : List RelatedRow :=
  if has_permission p bypassPermission then qs
  else
    match p.clientProfileId with
    | some cid =>
        qs.filter (fun r => r.relatedClientId = cid && (!clientVisibleOnly || r.clientVisible))
    | none =>
        (qs.filter (fun r =>
          (relatedLeadLawyerMatch p r || relatedAccessListMatch p r)
            && (!clientVisibleOnly || r.clientVisible))).dedup

/-- Embeds `TenantContextMiddleware` (core/middleware.py) sets
`request.organization_id` to `tenant_org_id or user.organization_id`;
`tenant_org_id` is only set by `JWTCookieAuthentication` after verifying it
equals the authenticated user's `organization_id`, so the request
organization id always resolves to the principal's organization id. -/
def requestOrganizationId (p : Principal) : Option Nat :=
  p.organizationId

/-- Embeds `OrganizationScopedQuerySetMixin.get_queryset` (config/tenancy.py):
resolve the organization id from the request, falling back to the user;
with no organization the queryset is empty (`queryset.none()`), else filter
rows to `organization_id = org_id`. Generic in the row type through
`orgIdOf`. -/
def orgScopedGetQueryset {α : Type} (orgIdOf : α → Nat) (qs : List α)
    (reqOrgId : Option Nat) (p : Principal) : List α :=
  let orgId := match reqOrgId with
    | some o => some o
    | none => p.organizationId
  match orgId with
  | none => []
  | some o => qs.filter (fun r => orgIdOf r = o)

/-- The composed scoped matter queryset of `MatterViewSet.get_queryset`
(matters/views.py): organization scoping via the mixin, then
`restrict_matters_queryset` with the default `matter.view_all` bypass. -/
def scopedMattersQueryset (db : List MatterRow) (p : Principal) : List MatterRow :=
  restrict_matters_queryset
    (orgScopedGetQueryset MatterRow.organizationId db (requestOrganizationId p) p)
    p "matter.view_all"

/-- A value of the `rbac_permissions` mapping
(`PermissionRequirement | list[str] | tuple[str, ...]`): either an explicit
requirement object or a bare sequence of codes. -/
inductive ReqValue where
  | requirement (r : PermissionRequirement)
  | codes (cs : List String)
  deriving DecidableEq, Repr

/-- Embeds `PermissionRequirement.from_value`: a requirement object passes
through; a bare sequence becomes an `all` clause. -/
def PermissionRequirement.from_value (v : ReqValue) : PermissionRequirement :=
  match v with
  | .requirement r => r
  | .codes cs => { all := cs, any := [] }

/-- Python truthiness of a requirement value (`if not required`): a
`PermissionRequirement` instance is always truthy, a sequence is truthy
when non-empty. -/
def ReqValue.truthy (v : ReqValue) : Bool :=
  match v with
  | .requirement _ => true
  | .codes cs => !cs.isEmpty

/-- The per-viewset RBAC declaration consumed by
`OrganizationModelViewSet.get_required_permissions` (config/tenancy.py):
the optional `rbac_resource` tag and the `rbac_permissions` dict, modelled
as an association list keyed by action name. -/
structure ViewPolicy where
  rbac_resource : Option String
  rbac_permissions : List (String × ReqValue)
  deriving DecidableEq, Repr

/-- Embeds `OrganizationModelViewSet.default_action_permission_map`. -/
def default_action_permission_map : List (String × String) :=
  [("list", "view"), ("retrieve", "view"), ("create", "manage"),
   ("update", "manage"), ("partial_update", "manage"), ("destroy", "manage")]

/-- Embeds `OrganizationModelViewSet.get_required_permissions` (config/tenancy.py):
no action (or a falsy action name) yields no requirement; an explicit
`rbac_permissions` entry wins; else a registered (truthy) `rbac_resource`
combined with the conventional verb for the action yields
`[f"{resource}.{verb}"]`; else no requirement. -/
def get_required_permissions (v : ViewPolicy) (action : Option String) : Option ReqValue :=
  match action with
  | none => none
  | some a =>
    if a = "" then none
    else
      match v.rbac_permissions.lookup a with
      | some rv => some rv
      | none =>
        match v.rbac_resource with
        | none => none
        | some res =>
          if res = "" then none
          else
            match default_action_permission_map.lookup a with
            | none => none
            | some verb => some (.codes [res ++ "." ++ verb])

/-- Embeds `RBACPermission.has_permission` (accounts/permissions.py): a missing or
falsy requirement allows the action unconditionally; otherwise the
requirement built by `from_value` must be satisfied by the requesting
principal. -/
def rbacAllows (v : ViewPolicy) (action : Option String) (p : Principal) : Bool :=
  match get_required_permissions v action with
  | none => true
  | some rv =>
    if !rv.truthy then true
    else (PermissionRequirement.from_value rv).is_satisfied p

/-- Embeds `IsOrganizationMember.has_permission` (accounts/permissions.py):
`bool(user and user.is_authenticated and getattr(user, "organization_id", None))`. -/
def isOrganizationMember (p : Principal) : Bool :=
  p.is_authenticated && (p.organizationId).isSome

/-- Embeds `IsNotClient.has_permission` (accounts/permissions.py). -/
def isNotClient (p : Principal) : Bool :=
  !is_client_user p

/-- The `DocumentViewSet` registration (portal/views.py): it subclasses
`OrganizationModelViewSet` and declares neither `rbac_resource` nor
`rbac_permissions`, so it inherits the class defaults `None` and `{}`. -/
def documentViewPolicy : ViewPolicy :=
  { rbac_resource := none, rbac_permissions := [] }

/-- A `Document` row (portal/models.py) with the attributes row-level
scoping could have keyed on: organization, parent matter ownership data,
owner, and the `client_visible` flag. -/
structure DocumentRow where
  id : Nat
  organizationId : Nat
  matterClientId : Nat
  matterLeadLawyerId : Option Nat
  matterAccessUserIds : List Nat
  ownerId : Nat
  clientVisible : Bool
  deriving DecidableEq, Repr

/-- The document list queryset: `DocumentViewSet` does not override
`get_queryset`, so listing applies only
`OrganizationScopedQuerySetMixin.get_queryset` — no row-level narrowing. -/
def documentListQueryset (db : List DocumentRow) (p : Principal) : List DocumentRow :=
  orgScopedGetQueryset DocumentRow.organizationId db (requestOrganizationId p) p

/-- The permission gate for `DocumentViewSet` actions: the conjunction of
its `permission_classes` `[IsOrganizationMember, IsNotClient,
RBACPermission]` evaluated for the given action. -/
def documentActionAllowed (action : Option String) (p : Principal) : Bool :=
  isOrganizationMember p && isNotClient p && rbacAllows documentViewPolicy action p

/-- Embeds `PermissionDefinition` (accounts/rbac.py). -/
structure PermissionDefinition where
  codename : String
  label : String
  description : String
  deriving DecidableEq, Repr

/-- Embeds `PERMISSION_DEFINITIONS` (accounts/rbac.py), in source order. -/
def PERMISSION_DEFINITIONS : List PermissionDefinition :=
  [⟨"org.manage", "Manage organization settings", "Update organization profile and configuration."⟩,
   ⟨"org.manage_users", "Manage staff users", "Invite and manage internal team members."⟩,
   ⟨"org.invite_clients", "Invite clients", "Invite clients to the portal."⟩,
   ⟨"org.manage_roles", "Manage roles & permissions", "Create roles and assign permissions."⟩,
   ⟨"org.view_audit_logs", "View audit logs", "View compliance and audit trail reports."⟩,
   ⟨"security.manage", "Manage security settings", "Configure MFA, SSO, and security controls."⟩,
   ⟨"ai.use", "Use AI assistant", "Access AI drafting and analysis tools."⟩,
   ⟨"client.view", "View clients", "View clients within the organization."⟩,
   ⟨"client.manage", "Manage clients", "Create or update client profiles."⟩,
   ⟨"matter.view", "View matters", "View matters assigned to the user."⟩,
   ⟨"matter.manage", "Manage matters", "Create and update matters assigned to the user."⟩,
   ⟨"matter.view_all", "View all matters", "View all matters in the organization."⟩,
   ⟨"document.view", "View documents", "View documents for assigned matters."⟩,
   ⟨"document.manage", "Manage documents", "Upload and edit documents for assigned matters."⟩,
   ⟨"document.manage_visibility", "Toggle document visibility", "Control client visibility for documents."⟩,
   ⟨"document.view_all", "View all documents", "View all documents in the organization."⟩,
   ⟨"invoice.view", "View invoices", "View invoices for assigned matters."⟩,
   ⟨"invoice.manage", "Manage invoices", "Create or edit invoices for assigned matters."⟩,
   ⟨"invoice.mark_paid", "Record payments", "Mark invoices as paid and manage payments."⟩,
   ⟨"invoice.view_all", "View all invoices", "View all invoices in the organization."⟩,
   ⟨"billing.record_time", "Record time entries", "Create and update time entries."⟩,
   ⟨"billing.record_expense", "Record expenses", "Create and update expenses."⟩,
   ⟨"billing.export", "Export billing reports", "Export or download billing and compliance reports."⟩,
   ⟨"messaging.use", "Secure messaging", "Participate in secure client messaging."⟩,
   ⟨"portal.client_access", "Client portal access", "Access client portal resources."⟩]

/-- One entry of `ROLE_DEFINITIONS` (accounts/rbac.py). -/
structure RoleDefinition where
  name : String
  permissions : List String
  is_custom : Bool
  deriving DecidableEq, Repr

/-- Embeds `ROLE_DEFINITIONS` (accounts/rbac.py), in dict insertion order. The
Admin and Owner permission lists are, as in the source, every catalog
codename except `portal.client_access`. -/
def ROLE_DEFINITIONS : List RoleDefinition :=
  [⟨"Admin",
    (PERMISSION_DEFINITIONS.filter
      (fun p => p.codename ≠ "portal.client_access")).map PermissionDefinition.codename,
    false⟩,
   ⟨"Owner",
    (PERMISSION_DEFINITIONS.filter
      (fun p => p.codename ≠ "portal.client_access")).map PermissionDefinition.codename,
    false⟩,
   ⟨"Lawyer",
    ["client.view", "matter.view", "matter.manage", "document.view", "document.manage",
     "document.manage_visibility", "invoice.view", "invoice.manage", "billing.record_time",
     "billing.record_expense", "messaging.use", "ai.use"],
    false⟩,
   ⟨"Paralegal",
    ["client.view", "matter.view", "document.view", "document.manage", "invoice.view",
     "billing.record_time", "billing.record_expense", "messaging.use"],
    false⟩,
   ⟨"Assistant",
    ["client.view", "matter.view", "document.view", "messaging.use"],
    false⟩,
   ⟨"Client",
    ["portal.client_access", "messaging.use"],
    false⟩,
   ⟨"Operations Admin",
    ["org.manage", "org.invite_clients", "client.view", "client.manage", "invoice.view",
     "invoice.mark_paid", "invoice.view_all", "billing.export"],
    false⟩,
   ⟨"IT / Security",
    ["security.manage", "org.manage_roles", "org.view_audit_logs"],
    false⟩,
   ⟨"Accounting / Finance",
    ["invoice.view", "invoice.manage", "invoice.mark_paid", "invoice.view_all", "billing.export"],
    false⟩]

/-- A global `Permission` table row (codename, label, description). -/
structure PermRow where
  codename : String
  label : String
  description : String
  deriving DecidableEq, Repr

/-- A `Role` table row: owning organization, name, `is_custom` flag and the
codenames of its granted permissions (the `permissions` many-to-many). -/
structure RoleRow where
  organizationId : Nat
  name : String
  is_custom : Bool
  perms : List String
  deriving DecidableEq, Repr

/-- The global Permission table together with the Role table. -/
structure RbacState where
  permissions : List PermRow
  roles : List RoleRow
  deriving DecidableEq, Repr

/-- Embeds `Permission.objects.get_or_create(codename=..., defaults=...)`: insert
the canonical row only when no row with that codename exists; an existing
row is fetched and left unchanged. -/
def upsertPermission (perms : List PermRow) (d : PermissionDefinition) : List PermRow :=
  if perms.any (fun p => p.codename = d.codename) then perms
  else perms ++ [⟨d.codename, d.label, d.description⟩]

/-- The permission loop of `sync_organization_roles`. -/
def syncPermissions (perms : List PermRow) : List PermRow :=
  PERMISSION_DEFINITIONS.foldl upsertPermission perms

/-- Embeds `Permission.objects.filter(codename__in=permissions)` projected to
codenames: the permission set stored into a role by
`role.permissions.set(...)`. -/
def canonicalRolePerms (permTable : List PermRow) (wanted : List String) : List String :=
  (permTable.filter (fun p => wanted.contains p.codename)).map PermRow.codename

/-- Whether a role row is the (organization, name) target of a definition. -/
def roleKeyMatch (org : Nat) (roleName : String) (r : RoleRow) : Bool :=
  r.organizationId = org && r.name = roleName

/-- The role row a definition's pass of the role loop installs for an
organization: the definition's name and `is_custom` flag, and the stored
permission set `Permission.objects.filter(codename__in=permissions)`. -/
def roleTarget (org : Nat) (permTable : List PermRow) (rd : RoleDefinition) : RoleRow :=
  ⟨org, rd.name, rd.is_custom, canonicalRolePerms permTable rd.permissions⟩

/-- The body of the role loop of `sync_organization_roles` for one
definition: `Role.objects.get_or_create(organization=..., name=...,
defaults={"is_custom": ...})`, the `is_custom` correction, and the
wholesale `role.permissions.set(...)` replacement. -/
def syncRole (org : Nat) (permTable : List PermRow) (roles : List RoleRow)
    (rd : RoleDefinition) : List RoleRow :=
  if roles.any (roleKeyMatch org rd.name) then
    roles.map (fun r =>
      if roleKeyMatch org rd.name r then roleTarget org permTable rd else r)
  else
    roles ++ [roleTarget org permTable rd]

/-- Embeds `sync_organization_roles` (accounts/rbac.py): upsert every canonical
permission, then fetch-or-create every canonical role of the organization,
correct its `is_custom` flag and replace its permission set wholesale. -/
def sync_organization_roles (org : Nat) (s : RbacState) : RbacState :=
  let permTable := syncPermissions s.permissions
  ⟨permTable, ROLE_DEFINITIONS.foldl (syncRole org permTable) s.roles⟩

/-- A principal identical to `p` except that the permission code `c` has
been removed from every role it holds (used to compare visibility with and
without a bypass permission). -/
def Principal.withoutPerm (p : Principal) (c : String) : Principal :=
  match p with
  | .anonymous => .anonymous
  | .user u =>
      .user { u with roles := u.roles.map (fun r => { r with perms := r.perms.filter (fun x => x ≠ c) }) }

/-- The `codename` unique constraint of the Permission table. -/
def permsUnique (s : RbacState) : Prop :=
  (s.permissions.map PermRow.codename).Nodup

/-- The `unique_together ("name", "organization")` constraint of the Role
table. -/
def rolesUnique (s : RbacState) : Prop :=
  (s.roles.map (fun r => (r.organizationId, r.name))).Nodup

/-! ### Helper lemmas about the permission evaluator -/

theorem mem_permission_codes {u : UserRec} {c : String} :
    c ∈ permission_codes (Principal.user u) ↔ ∃ r ∈ u.roles, c ∈ r.perms := by
  simp [permission_codes, List.mem_flatten, List.mem_map]

theorem has_permissions_iff (p : Principal) (cs : List String) :
    has_permissions p cs = true ↔ ∀ c ∈ cs, c ≠ "" → c ∈ permission_codes p := by
  unfold has_permissions
  by_cases he : (cs.filter (fun c => c ≠ "")).isEmpty
  · have hall : ∀ c ∈ cs, c = "" := by simpa using he
    simp only [he, if_true, true_iff]
    intro c hc hne
    exact absurd (hall c hc) hne
  · simp only [he, if_neg, Bool.not_eq_true]
    rw [List.all_eq_true]
    constructor
    · intro h c hc hne
      have := h c (by simp [List.mem_filter, hc, hne])
      simpa [List.elem_iff] using this
    · intro h c hc
      rw [List.mem_filter] at hc
      have hne : c ≠ "" := by simpa using hc.2
      simpa [List.elem_iff] using h c hc.1 hne

theorem has_any_permission_iff (p : Principal) (cs : List String) :
    has_any_permission p cs = true ↔
      ((∃ c ∈ cs, c ≠ "") → ∃ c ∈ cs, c ≠ "" ∧ c ∈ permission_codes p) := by
  unfold has_any_permission
  by_cases he : (cs.filter (fun c => c ≠ "")).isEmpty
  · have hall : ∀ c ∈ cs, c = "" := by simpa using he
    simp only [he, if_true, true_iff]
    intro hex
    obtain ⟨c, hc, hne⟩ := hex
    exact absurd (hall c hc) hne
  · simp only [he, if_neg, Bool.not_eq_true]
    rw [List.any_eq_true]
    constructor
    · intro h _
      obtain ⟨c, hc, hmem⟩ := h
      rw [List.mem_filter] at hc
      refine ⟨c, hc.1, by simpa using hc.2, by simpa [List.elem_iff] using hmem⟩
    · intro h
      have hne : cs.filter (fun c => c ≠ "") ≠ [] := by
        simpa [List.isEmpty_iff] using he
      obtain ⟨c, hc⟩ := List.exists_mem_of_ne_nil _ hne
      rw [List.mem_filter] at hc
      obtain ⟨d, hd, hdne, hdmem⟩ := h ⟨c, hc.1, by simpa using hc.2⟩
      exact ⟨d, by simp [List.mem_filter, hd, hdne], by simpa [List.elem_iff] using hdmem⟩

theorem is_satisfied_user_iff (req : PermissionRequirement) (u : UserRec) :
    req.is_satisfied (Principal.user u) = true ↔
      has_permissions (Principal.user u) req.all = true
        ∧ has_any_permission (Principal.user u) req.any = true := by
  unfold PermissionRequirement.is_satisfied
  simp only [Principal.is_authenticated, Bool.not_true, Bool.false_eq_true, if_false]
  by_cases hall : req.all.isEmpty
  · have h1 : has_permissions (Principal.user u) req.all = true := by
      rw [has_permissions_iff]
      intro c hc
      rw [List.isEmpty_iff] at hall
      simp [hall] at hc
    by_cases hany : req.any.isEmpty
    · have h2 : has_any_permission (Principal.user u) req.any = true := by
        rw [has_any_permission_iff]
        intro hex
        rw [List.isEmpty_iff] at hany
        obtain ⟨c, hc, _⟩ := hex
        simp [hany] at hc
      simp [hall, hany, h1, h2]
    · simp only [hall, Bool.not_false, Bool.false_and, Bool.false_eq_true, if_false, hany]
      cases h2 : has_any_permission (Principal.user u) req.any <;> simp [h1, h2, hany]
  · simp only [hall]
    cases h1 : has_permissions (Principal.user u) req.all
    · simp [hall, h1]
    · by_cases hany : req.any.isEmpty
      · have h2 : has_any_permission (Principal.user u) req.any = true := by
          rw [has_any_permission_iff]
          intro hex
          rw [List.isEmpty_iff] at hany
          obtain ⟨c, hc, _⟩ := hex
          simp [hany] at hc
        simp [hall, hany, h1, h2]
      · cases h2 : has_any_permission (Principal.user u) req.any <;>
          simp [hall, hany, h1, h2]

/-- A concrete staff user: one Lawyer role granting `matter.view`. -/
def exStaffUser : UserRec :=
  ⟨1, some 10, [⟨"Lawyer", ["matter.view"]⟩], none⟩

/-- C7 counterexample: the claim's biconditional fails as stated. For the
requirement with `all = []` and `any = [""]`, the `any` clause is a
non-empty list, the authenticated principal's permission set contains none
of its entries, yet `is_satisfied` returns true (the evaluator drops falsy
codes before testing, making the clause vacuous). -/
theorem requirement_empty_string_any_clause_vacuous :
    (PermissionRequirement.mk [] [""]).is_satisfied (Principal.user exStaffUser) = true
    ∧ ((PermissionRequirement.mk [] [""]).any ≠ [])
    ∧ ∀ c ∈ (PermissionRequirement.mk [] [""]).any,
        ¬ c ∈ permission_codes (Principal.user exStaffUser) := by
  refine ⟨by decide, by decide, ?_⟩
  intro c hc
  have : c = "" := by simpa using hc
  subst this
  decide

/-- C7 (amended): `is_satisfied` is false for every unauthenticated or
missing principal; for every authenticated principal it is true iff the
principal's permission set contains every non-empty code of the `all`
clause and, when the `any` clause contains a non-empty code, at least one
non-empty code of the `any` clause; in particular a requirement with empty
`all` and empty `any` is satisfied by every authenticated principal and by
no unauthenticated principal. (Amendment: entries of a clause that are
empty strings are dropped by the evaluator before testing.) -/
theorem requirement_satisfaction_semantics (req : PermissionRequirement) (u : UserRec) :
    req.is_satisfied Principal.anonymous = false
    ∧ (req.is_satisfied (Principal.user u) = true ↔
        ((∀ c ∈ req.all, c ≠ "" → c ∈ permission_codes (Principal.user u))
         ∧ ((∃ c ∈ req.any, c ≠ "") →
              ∃ c ∈ req.any, c ≠ "" ∧ c ∈ permission_codes (Principal.user u))))
    ∧ (req.all = [] → req.any = [] → req.is_satisfied (Principal.user u) = true) := by
  refine ⟨rfl, ?_, ?_⟩
  · rw [is_satisfied_user_iff, has_permissions_iff, has_any_permission_iff]
  · intro hall hany
    rw [is_satisfied_user_iff, has_permissions_iff, has_any_permission_iff]
    constructor
    · intro c hc
      simp [hall] at hc
    · intro hex
      obtain ⟨c, hc, _⟩ := hex
      simp [hany] at hc

/-- C7 witness: the vacuity clause of `requirement_satisfaction_semantics`
at a concrete requirement and user. -/
theorem requirement_satisfaction_semantics_witness :
    (PermissionRequirement.mk [] []).all = []
    ∧ (PermissionRequirement.mk [] []).any = []
    ∧ (PermissionRequirement.mk [] []).is_satisfied (Principal.user exStaffUser) = true :=
  ⟨rfl, rfl,
    (requirement_satisfaction_semantics (PermissionRequirement.mk [] []) exStaffUser).2.2
      rfl rfl⟩

/-- C8: a principal's effective permission set is the union of its roles'
permission sets, and a principal holding two roles whose permission sets
are disjoint singletons, one granting `a` and the other granting `b`,
passes `has_permissions` for `[a, b]`. -/
theorem effective_permissions_union (u : UserRec) (a b : String) (r1 r2 : RoleRec)
    (h1 : r1 ∈ u.roles) (h2 : r2 ∈ u.roles)
    (hp1 : r1.perms = [a]) (hp2 : r2.perms = [b]) (_hab : a ≠ b) :
    (∀ c, c ∈ permission_codes (Principal.user u) ↔ ∃ r ∈ u.roles, c ∈ r.perms)
    ∧ has_permissions (Principal.user u) [a, b] = true := by
  constructor
  · intro c
    exact mem_permission_codes
  · have ha : a ∈ permission_codes (Principal.user u) :=
      mem_permission_codes.mpr ⟨r1, h1, by simp [hp1]⟩
    have hb : b ∈ permission_codes (Principal.user u) :=
      mem_permission_codes.mpr ⟨r2, h2, by simp [hp2]⟩
    rw [has_permissions_iff]
    intro c hc _
    rcases List.mem_cons.mp hc with h | h
    · exact h ▸ ha
    · have : c = b := by simpa using h
      exact this ▸ hb

/-- C8 witness: a concrete user holding disjoint singleton roles. -/
def exTwoRoleUser : UserRec :=
  ⟨2, some 10, [⟨"RoleA", ["A"]⟩, ⟨"RoleB", ["B"]⟩], none⟩

/-- C8 witness: `effective_permissions_union` at `exTwoRoleUser`. -/
theorem effective_permissions_union_witness :
    has_permissions (Principal.user exTwoRoleUser) ["A", "B"] = true :=
  (effective_permissions_union exTwoRoleUser "A" "B" ⟨"RoleA", ["A"]⟩ ⟨"RoleB", ["B"]⟩
    (by decide) (by decide) rfl rfl (by decide)).2

/-- C9: requirement resolution — an explicit `rbac_permissions` entry for
the action wins; otherwise a registered resource tag resolves `list` and
`retrieve` to `<resource>.view` and `create`/`update`/`partial_update`/
`destroy` to `<resource>.manage`; when no explicit entry applies and there
is no resource tag or no default-mapped action, no requirement is produced
and the evaluator allows the action unconditionally for every principal. -/
theorem resolve_requirement_behavior
    (v : ViewPolicy) (a res : String) (rv : ReqValue) (p : Principal) :
    (a ≠ "" → v.rbac_permissions.lookup a = some rv →
       get_required_permissions v (some a) = some rv)
    ∧ (a ≠ "" → v.rbac_permissions.lookup a = none →
        v.rbac_resource = some res → res ≠ "" →
        ((a = "list" ∨ a = "retrieve") →
           get_required_permissions v (some a) = some (.codes [res ++ ".view"]))
        ∧ ((a = "create" ∨ a = "update" ∨ a = "partial_update" ∨ a = "destroy") →
           get_required_permissions v (some a) = some (.codes [res ++ ".manage"])))
    ∧ (v.rbac_permissions.lookup a = none →
        (v.rbac_resource = none ∨ default_action_permission_map.lookup a = none) →
        get_required_permissions v (some a) = none)
    ∧ (get_required_permissions v (some a) = none → rbacAllows v (some a) p = true) := by
  refine ⟨?_, ?_, ?_, ?_⟩
  · intro ha hl
    simp [get_required_permissions, ha, hl]
  · intro ha hl hres hresne
    constructor
    · rintro (rfl | rfl) <;>
        · simp [get_required_permissions, ha, hl, hres, hresne,
            default_action_permission_map, List.lookup]
          rw [String.append_assoc]
          rfl
    · rintro (rfl | rfl | rfl | rfl) <;>
        · simp [get_required_permissions, ha, hl, hres, hresne,
            default_action_permission_map, List.lookup]
          rw [String.append_assoc]
          rfl
  · intro hl hcase
    by_cases ha : a = ""
    · simp [get_required_permissions, ha]
    · rcases hcase with hres | hdef
      · simp [get_required_permissions, ha, hl, hres]
      · rcases hr : v.rbac_resource with _ | res₀
        · simp [get_required_permissions, ha, hl, hr]
        · by_cases hresne : res₀ = "" <;>
            simp [get_required_permissions, ha, hl, hr, hresne, hdef]
  · intro hnone
    simp [rbacAllows, hnone]

/-- C9 witness: `resolve_requirement_behavior` at the matter viewset's
explicit entry, at a bare resource tag, and at the document viewset's empty
policy. -/
theorem resolve_requirement_behavior_witness :
    get_required_permissions
        (ViewPolicy.mk (some "matter")
          [("list", ReqValue.requirement (PermissionRequirement.mk ["matter.view"] []))])
        (some "list")
      = some (ReqValue.requirement (PermissionRequirement.mk ["matter.view"] []))
    ∧ get_required_permissions (ViewPolicy.mk (some "deadline") []) (some "destroy")
      = some (ReqValue.codes ["deadline.manage"])
    ∧ get_required_permissions (ViewPolicy.mk none []) (some "list") = none
    ∧ rbacAllows (ViewPolicy.mk none []) (some "list") Principal.anonymous = true := by
  refine ⟨?_, ?_, ?_, ?_⟩
  · exact (resolve_requirement_behavior
      (ViewPolicy.mk (some "matter")
        [("list", ReqValue.requirement (PermissionRequirement.mk ["matter.view"] []))])
      "list" "matter"
      (ReqValue.requirement (PermissionRequirement.mk ["matter.view"] []))
      Principal.anonymous).1 (by decide) (by decide)
  · exact ((resolve_requirement_behavior (ViewPolicy.mk (some "deadline") [])
      "destroy" "deadline" (ReqValue.codes []) Principal.anonymous).2.1
      (by decide) (by decide) rfl (by decide)).2 (by simp)
  · exact (resolve_requirement_behavior (ViewPolicy.mk none [])
      "list" "" (ReqValue.codes []) Principal.anonymous).2.2.1 (by decide) (Or.inl rfl)
  · exact (resolve_requirement_behavior (ViewPolicy.mk none [])
      "list" "" (ReqValue.codes []) Principal.anonymous).2.2.2
      ((resolve_requirement_behavior (ViewPolicy.mk none [])
        "list" "" (ReqValue.codes []) Principal.anonymous).2.2.1 (by decide) (Or.inl rfl))

/-- C10: the staff document viewset registers no resource tag and no
per-action requirements, so its list action resolves to no permission
requirement; every authenticated non-client principal with an organization
passes the full permission gate without holding `document.view` (or any
permission at all), and the document list queryset is the organization
filter alone — every document row of the principal's organization is
returned, with no restriction by lead/owner, access grant, or
client-visibility flag. -/
theorem document_list_unrestricted (db : List DocumentRow) (u : UserRec) (o : Nat)
    (horg : u.organizationId = some o)
    (hnc : ¬ "Client" ∈ u.roles.map RoleRec.name) :
    get_required_permissions documentViewPolicy (some "list") = none
    ∧ documentActionAllowed (some "list") (Principal.user u) = true
    ∧ documentListQueryset db (Principal.user u)
        = db.filter (fun r => r.organizationId = o) := by
  refine ⟨rfl, ?_, ?_⟩
  · have h1 : isOrganizationMember (Principal.user u) = true := by
      simp [isOrganizationMember, Principal.is_authenticated, Principal.organizationId, horg]
    have h2 : isNotClient (Principal.user u) = true := by
      simp [isNotClient, is_client_user, role_names, Principal.is_authenticated]
      intro r hr hname
      exact hnc (List.mem_map.mpr ⟨r, hr, hname⟩)
    simp only [documentActionAllowed, h1, h2, Bool.true_and]
    rfl
  · simp [documentListQueryset, orgScopedGetQueryset, requestOrganizationId,
      Principal.organizationId, horg]

/-- C10 witness: a lawyer with no permissions at all still lists every
document of their organization. -/
theorem document_list_unrestricted_witness :
    documentActionAllowed (some "list") (Principal.user exStaffUser) = true
    ∧ documentListQueryset
        [⟨500, 10, 6, some 99, [], 77, false⟩, ⟨501, 11, 6, some 1, [1], 1, true⟩]
        (Principal.user exStaffUser)
      = [⟨500, 10, 6, some 99, [], 77, false⟩] := by
  have h := document_list_unrestricted
    [⟨500, 10, 6, some 99, [], 77, false⟩, ⟨501, 11, 6, some 1, [1], 1, true⟩]
    exStaffUser 10 rfl (by decide)
  refine ⟨h.2.1, ?_⟩
  rw [h.2.2]
  decide

/-! ### Scoping-filter lemmas -/

theorem restrict_matters_subset (qs : List MatterRow) (p : Principal) (bp : String) :
    ∀ x ∈ restrict_matters_queryset qs p bp, x ∈ qs := by
  intro x hx
  unfold restrict_matters_queryset at hx
  split at hx
  · exact hx
  · split at hx
    · exact (List.mem_filter.mp hx).1
    · exact (List.mem_filter.mp (List.mem_dedup.mp hx)).1

theorem restrict_related_subset (qs : List RelatedRow) (p : Principal) (bp : String)
    (cv : Bool) :
    ∀ x ∈ restrict_related_queryset qs p bp cv, x ∈ qs := by
  intro x hx
  unfold restrict_related_queryset at hx
  split at hx
  · exact hx
  · split at hx
    · exact (List.mem_filter.mp hx).1
    · exact (List.mem_filter.mp (List.mem_dedup.mp hx)).1

theorem restrict_matters_empty (p : Principal) (bp : String) :
    restrict_matters_queryset [] p bp = [] := by
  unfold restrict_matters_queryset
  split
  · rfl
  · split <;> rfl

/-- C1: tenant isolation of the scoped matter queryset. A row whose
organization id differs from the principal's organization id is never
returned, whatever roles and permissions (bypass included) the principal
holds; and an unauthenticated principal, or one without an organization id,
gets the empty collection. -/
theorem tenant_isolation_scope (db : List MatterRow) (p : Principal) (r : MatterRow) :
    (p.organizationId ≠ some r.organizationId → ¬ r ∈ scopedMattersQueryset db p)
    ∧ (p.is_authenticated = false ∨ p.organizationId = none →
        scopedMattersQueryset db p = []) := by
  constructor
  · intro hne hr
    have hbase := restrict_matters_subset _ p "matter.view_all" r hr
    unfold orgScopedGetQueryset requestOrganizationId at hbase
    rcases ho : p.organizationId with _ | o
    · simp only [ho] at hbase
      simp at hbase
    · simp only [ho] at hbase
      have : r.organizationId = o := by
        simpa using (List.mem_filter.mp hbase).2
      exact hne (by rw [ho, this])
  · intro h
    have ho : p.organizationId = none := by
      rcases h with h | h
      · cases p with
        | anonymous => rfl
        | user u => simp [Principal.is_authenticated] at h
      · exact h
    unfold scopedMattersQueryset orgScopedGetQueryset requestOrganizationId
    rw [ho]
    exact restrict_matters_empty p "matter.view_all"

/-- C1 witness: a cross-organization matter is excluded for a bypass-holding
principal, and the anonymous principal sees nothing. -/
theorem tenant_isolation_scope_witness :
    (Principal.user ⟨1, some 10, [⟨"Admin", ["matter.view_all"]⟩], none⟩).organizationId
        ≠ some 20
    ∧ ¬ (⟨200, 20, 5, some 1, [1]⟩ : MatterRow) ∈
        scopedMattersQueryset [⟨200, 20, 5, some 1, [1]⟩]
          (Principal.user ⟨1, some 10, [⟨"Admin", ["matter.view_all"]⟩], none⟩)
    ∧ scopedMattersQueryset [⟨200, 20, 5, some 1, [1]⟩] Principal.anonymous = [] := by
  refine ⟨by decide, ?_, ?_⟩
  · exact (tenant_isolation_scope [⟨200, 20, 5, some 1, [1]⟩]
      (Principal.user ⟨1, some 10, [⟨"Admin", ["matter.view_all"]⟩], none⟩)
      ⟨200, 20, 5, some 1, [1]⟩).1 (by decide)
  · exact (tenant_isolation_scope [⟨200, 20, 5, some 1, [1]⟩]
      Principal.anonymous ⟨200, 20, 5, some 1, [1]⟩).2 (Or.inl rfl)

/-- C2: bypass monotonicity. For every principal and every collection, the
row-scoping filters return, when the principal holds the relevant bypass
permission, a superset of what the same principal without that bypass
permission would see — for the matter filter with its `matter.view_all`
bypass, and for the related-row filter with an arbitrary bypass code and
visibility policy. Each conjunct assumes only its own family's bypass. -/
theorem bypass_monotonicity (qs : List MatterRow) (qr : List RelatedRow) (p : Principal)
    (bpr : String) (cv : Bool) :
    (has_permission p "matter.view_all" = true →
      ∀ x ∈ restrict_matters_queryset qs (p.withoutPerm "matter.view_all") "matter.view_all",
        x ∈ restrict_matters_queryset qs p "matter.view_all")
    ∧ (has_permission p bpr = true →
      ∀ x ∈ restrict_related_queryset qr (p.withoutPerm bpr) bpr cv,
        x ∈ restrict_related_queryset qr p bpr cv) := by
  constructor
  · intro hm x hx
    have hsub := restrict_matters_subset qs (p.withoutPerm "matter.view_all")
      "matter.view_all" x hx
    unfold restrict_matters_queryset
    rw [if_pos hm]
    exact hsub
  · intro hr x hx
    have hsub := restrict_related_subset qr (p.withoutPerm bpr) bpr cv x hx
    unfold restrict_related_queryset
    rw [if_pos hr]
    exact hsub

/-- C2 witness: a lead-lawyer-owned matter visible without the bypass stays
visible with `matter.view_all`; and for the related-row filter, a principal
holding only `invoice.view_all` (no matter bypass at all) keeps seeing a
row it saw as lead lawyer. -/
theorem bypass_monotonicity_witness :
    has_permission (Principal.user ⟨1, some 10, [⟨"Admin", ["matter.view_all"]⟩], none⟩)
        "matter.view_all" = true
    ∧ (⟨100, 10, 5, some 1, []⟩ : MatterRow) ∈
        restrict_matters_queryset [⟨100, 10, 5, some 1, []⟩]
          (Principal.user ⟨1, some 10, [⟨"Admin", ["matter.view_all"]⟩], none⟩)
          "matter.view_all"
    ∧ has_permission
        (Principal.user ⟨3, some 10, [⟨"Accounting / Finance", ["invoice.view_all"]⟩], none⟩)
        "invoice.view_all" = true
    ∧ (⟨300, 10, 5, some 3, [], true⟩ : RelatedRow) ∈
        restrict_related_queryset [⟨300, 10, 5, some 3, [], true⟩]
          (Principal.user ⟨3, some 10, [⟨"Accounting / Finance", ["invoice.view_all"]⟩], none⟩)
          "invoice.view_all" true := by
  refine ⟨by decide, ?_, by decide, ?_⟩
  · exact (bypass_monotonicity [⟨100, 10, 5, some 1, []⟩] []
      (Principal.user ⟨1, some 10, [⟨"Admin", ["matter.view_all"]⟩], none⟩)
      "matter.view_all" true).1 (by decide) _ (by decide)
  · exact (bypass_monotonicity [] [⟨300, 10, 5, some 3, [], true⟩]
      (Principal.user ⟨3, some 10, [⟨"Accounting / Finance", ["invoice.view_all"]⟩], none⟩)
      "invoice.view_all" true).2 (by decide) _ (by decide)

/-! ### Synchronizer lemmas: the permission upsert loop -/

theorem upsertPermission_codename_sub (P : List PermRow) (d : PermissionDefinition) :
    ∀ c ∈ P.map PermRow.codename, c ∈ (upsertPermission P d).map PermRow.codename := by
  intro c hc
  unfold upsertPermission
  split
  · exact hc
  · simp only [List.map_append]
    exact List.mem_append_left _ hc

theorem upsertPermission_covers (P : List PermRow) (d : PermissionDefinition) :
    d.codename ∈ (upsertPermission P d).map PermRow.codename := by
  unfold upsertPermission
  split
  case isTrue h =>
    rw [List.any_eq_true] at h
    obtain ⟨p, hp, hpc⟩ := h
    simp only [decide_eq_true_eq] at hpc
    exact hpc ▸ List.mem_map_of_mem PermRow.codename hp
  case isFalse h =>
    simp

theorem foldl_upsert_mono (l : List PermissionDefinition) (P : List PermRow) :
    ∀ c ∈ P.map PermRow.codename,
      c ∈ (l.foldl upsertPermission P).map PermRow.codename := by
  induction l generalizing P with
  | nil => exact fun c hc => hc
  | cons hd tl ih =>
    intro c hc
    exact ih (upsertPermission P hd) c (upsertPermission_codename_sub P hd c hc)

theorem foldl_upsert_covers (l : List PermissionDefinition) (P : List PermRow) :
    ∀ d ∈ l, d.codename ∈ (l.foldl upsertPermission P).map PermRow.codename := by
  induction l generalizing P with
  | nil => intro d hd; simp at hd
  | cons hd tl ih =>
    intro d hmem
    rcases List.mem_cons.mp hmem with rfl | htl
    · simp only [List.foldl_cons]
      exact foldl_upsert_mono tl (upsertPermission P d) d.codename
        (upsertPermission_covers P d)
    · exact ih (upsertPermission P hd) d htl

theorem syncPermissions_covers (P : List PermRow) :
    ∀ d ∈ PERMISSION_DEFINITIONS,
      d.codename ∈ (syncPermissions P).map PermRow.codename :=
  foldl_upsert_covers PERMISSION_DEFINITIONS P

theorem upsertPermission_noop (P : List PermRow) (d : PermissionDefinition)
    (h : d.codename ∈ P.map PermRow.codename) : upsertPermission P d = P := by
  unfold upsertPermission
  rw [if_pos]
  rw [List.any_eq_true]
  obtain ⟨p, hp, hpc⟩ := List.mem_map.mp h
  exact ⟨p, hp, by simp [hpc]⟩

theorem foldl_upsert_noop (l : List PermissionDefinition) (P : List PermRow)
    (h : ∀ d ∈ l, d.codename ∈ P.map PermRow.codename) :
    l.foldl upsertPermission P = P := by
  induction l with
  | nil => rfl
  | cons hd tl ih =>
    simp only [List.foldl_cons]
    rw [upsertPermission_noop P hd (h hd (List.mem_cons_self hd tl))]
    exact ih (fun d hd₂ => h d (List.mem_cons_of_mem hd hd₂))

theorem syncPermissions_fixpoint (P : List PermRow) :
    syncPermissions (syncPermissions P) = syncPermissions P :=
  foldl_upsert_noop PERMISSION_DEFINITIONS (syncPermissions P) (syncPermissions_covers P)

theorem upsertPermission_append (P : List PermRow) (d : PermissionDefinition) :
    ∃ t, upsertPermission P d = P ++ t := by
  unfold upsertPermission
  split
  · exact ⟨[], by simp⟩
  · exact ⟨[⟨d.codename, d.label, d.description⟩], rfl⟩

theorem foldl_upsert_append (l : List PermissionDefinition) (P : List PermRow) :
    ∃ t, l.foldl upsertPermission P = P ++ t := by
  induction l generalizing P with
  | nil => exact ⟨[], by simp⟩
  | cons hd tl ih =>
    obtain ⟨t₁, ht₁⟩ := upsertPermission_append P hd
    obtain ⟨t₂, ht₂⟩ := ih (upsertPermission P hd)
    refine ⟨t₁ ++ t₂, ?_⟩
    simp only [List.foldl_cons]
    rw [ht₂, ht₁, List.append_assoc]

theorem upsertPermission_nodup (P : List PermRow) (d : PermissionDefinition)
    (h : (P.map PermRow.codename).Nodup) :
    ((upsertPermission P d).map PermRow.codename).Nodup := by
  unfold upsertPermission
  split
  case isTrue _ => exact h
  case isFalse habs =>
    simp only [List.map_append]
    rw [List.nodup_append]
    refine ⟨h, List.nodup_singleton _, ?_⟩
    intro c hc hc₂
    have : c = d.codename := by simpa using hc₂
    subst this
    obtain ⟨p, hp, hpc⟩ := List.mem_map.mp hc
    rw [Bool.not_eq_true, List.any_eq_false] at habs
    exact absurd (by simp [hpc]) (habs p hp)

theorem foldl_upsert_nodup (l : List PermissionDefinition) (P : List PermRow)
    (h : (P.map PermRow.codename).Nodup) :
    ((l.foldl upsertPermission P).map PermRow.codename).Nodup := by
  induction l generalizing P with
  | nil => exact h
  | cons hd tl ih =>
    simp only [List.foldl_cons]
    exact ih (upsertPermission P hd) (upsertPermission_nodup P hd h)

/-! ### Synchronizer lemmas: the role loop -/

/-- A role table is settled for one definition: the (organization, name)
row exists and every row with that key is exactly the canonical target. -/
def RoleOk (org : Nat) (T : List PermRow) (rd : RoleDefinition)
    (roles : List RoleRow) : Prop :=
  (∃ r ∈ roles, roleKeyMatch org rd.name r = true)
  ∧ ∀ r ∈ roles, roleKeyMatch org rd.name r = true → r = roleTarget org T rd

theorem roleKeyMatch_target (org : Nat) (T : List PermRow) (rd : RoleDefinition) :
    roleKeyMatch org rd.name (roleTarget org T rd) = true := by
  simp [roleKeyMatch, roleTarget]

theorem roleKeyMatch_ne_name {org : Nat} {n₁ n₂ : String} {r : RoleRow}
    (hne : n₁ ≠ n₂) (h : roleKeyMatch org n₁ r = true) :
    roleKeyMatch org n₂ r = false := by
  simp only [roleKeyMatch, Bool.and_eq_true, decide_eq_true_eq] at h
  simp [roleKeyMatch, h.2, hne]

theorem syncRole_establishes (org : Nat) (T : List PermRow) (roles : List RoleRow)
    (rd : RoleDefinition) : RoleOk org T rd (syncRole org T roles rd) := by
  unfold syncRole
  split
  case isTrue hany =>
    rw [List.any_eq_true] at hany
    obtain ⟨r₀, hr₀, hm₀⟩ := hany
    constructor
    · refine ⟨roleTarget org T rd, ?_, roleKeyMatch_target org T rd⟩
      rw [List.mem_map]
      exact ⟨r₀, hr₀, by rw [if_pos hm₀]⟩
    · intro r hr hm
      obtain ⟨r₁, hr₁, hf⟩ := List.mem_map.mp hr
      by_cases hm₁ : roleKeyMatch org rd.name r₁ = true
      · rw [if_pos hm₁] at hf
        exact hf.symm
      · rw [if_neg hm₁] at hf
        exact absurd (hf ▸ hm) hm₁
  case isFalse hany =>
    constructor
    · exact ⟨roleTarget org T rd, List.mem_append_right _ (by simp), roleKeyMatch_target org T rd⟩
    · intro r hr hm
      rcases List.mem_append.mp hr with hin | hnew
      · rw [Bool.not_eq_true, List.any_eq_false] at hany
        exact absurd hm (by simpa using hany r hin)
      · simpa using hnew

theorem syncRole_preserves (org : Nat) (T : List PermRow) (roles : List RoleRow)
    (rd rd₂ : RoleDefinition) (hne : rd.name ≠ rd₂.name)
    (h : RoleOk org T rd roles) : RoleOk org T rd (syncRole org T roles rd₂) := by
  obtain ⟨⟨w, hw, hwm⟩, hall⟩ := h
  unfold syncRole
  split
  case isTrue hany =>
    constructor
    · refine ⟨w, ?_, hwm⟩
      rw [List.mem_map]
      refine ⟨w, hw, ?_⟩
      rw [if_neg]
      rw [roleKeyMatch_ne_name hne hwm]
      simp
    · intro r hr hm
      obtain ⟨r₁, hr₁, hf⟩ := List.mem_map.mp hr
      by_cases hm₁ : roleKeyMatch org rd₂.name r₁ = true
      · rw [if_pos hm₁] at hf
        subst hf
        have : roleKeyMatch org rd.name (roleTarget org T rd₂) = false :=
          roleKeyMatch_ne_name hne.symm (roleKeyMatch_target org T rd₂)
        exact absurd hm (by simp [this])
      · rw [if_neg hm₁] at hf
        exact hall r (hf ▸ hr₁) hm
  case isFalse hany =>
    constructor
    · exact ⟨w, List.mem_append_left _ hw, hwm⟩
    · intro r hr hm
      rcases List.mem_append.mp hr with hin | hnew
      · exact hall r hin hm
      · have : r = roleTarget org T rd₂ := by simpa using hnew
        subst this
        have : roleKeyMatch org rd.name (roleTarget org T rd₂) = false :=
          roleKeyMatch_ne_name hne.symm (roleKeyMatch_target org T rd₂)
        exact absurd hm (by simp [this])

theorem foldl_syncRole_preserves (org : Nat) (T : List PermRow)
    (l : List RoleDefinition) (roles : List RoleRow) (rd : RoleDefinition)
    (hne : ∀ rd₂ ∈ l, rd.name ≠ rd₂.name) (h : RoleOk org T rd roles) :
    RoleOk org T rd (l.foldl (syncRole org T) roles) := by
  induction l generalizing roles with
  | nil => exact h
  | cons hd tl ih =>
    simp only [List.foldl_cons]
    exact ih (syncRole org T roles hd)
      (fun rd₂ h₂ => hne rd₂ (List.mem_cons_of_mem hd h₂))
      (syncRole_preserves org T roles rd hd (hne hd (List.mem_cons_self hd tl)) h)

theorem foldl_syncRole_ok (org : Nat) (T : List PermRow)
    (l : List RoleDefinition) (roles : List RoleRow)
    (hnd : (l.map RoleDefinition.name).Nodup) :
    ∀ rd ∈ l, RoleOk org T rd (l.foldl (syncRole org T) roles) := by
  induction l generalizing roles with
  | nil => intro rd hrd; simp at hrd
  | cons hd tl ih =>
    intro rd hrd
    simp only [List.map_cons, List.nodup_cons] at hnd
    rcases List.mem_cons.mp hrd with rfl | htl
    · simp only [List.foldl_cons]
      refine foldl_syncRole_preserves org T tl (syncRole org T roles rd) rd ?_
        (syncRole_establishes org T roles rd)
      intro rd₂ h₂ heq
      exact hnd.1 (heq ▸ List.mem_map_of_mem RoleDefinition.name h₂)
    · exact ih (syncRole org T roles hd) hnd.2 rd htl

theorem map_eq_self_of_mem {α : Type} {l : List α} {f : α → α}
    (h : ∀ x ∈ l, f x = x) : l.map f = l := by
  induction l with
  | nil => rfl
  | cons hd tl ih =>
    simp only [List.map_cons]
    rw [h hd (List.mem_cons_self hd tl), ih (fun x hx => h x (List.mem_cons_of_mem hd hx))]

theorem syncRole_noop (org : Nat) (T : List PermRow) (roles : List RoleRow)
    (rd : RoleDefinition) (h : RoleOk org T rd roles) :
    syncRole org T roles rd = roles := by
  obtain ⟨⟨w, hw, hwm⟩, hall⟩ := h
  unfold syncRole
  rw [if_pos (List.any_eq_true.mpr ⟨w, hw, hwm⟩)]
  apply map_eq_self_of_mem
  intro r hr
  by_cases hm : roleKeyMatch org rd.name r = true
  · rw [if_pos hm]
    exact (hall r hr hm).symm
  · rw [if_neg hm]

theorem foldl_syncRole_noop (org : Nat) (T : List PermRow)
    (l : List RoleDefinition) (roles : List RoleRow)
    (h : ∀ rd ∈ l, RoleOk org T rd roles) :
    l.foldl (syncRole org T) roles = roles := by
  induction l with
  | nil => rfl
  | cons hd tl ih =>
    simp only [List.foldl_cons]
    rw [syncRole_noop org T roles hd (h hd (List.mem_cons_self hd tl))]
    exact ih (fun rd hrd => h rd (List.mem_cons_of_mem hd hrd))

theorem role_definition_names_nodup :
    (ROLE_DEFINITIONS.map RoleDefinition.name).Nodup := by
  decide

theorem syncRole_keys_nodup (org : Nat) (T : List PermRow) (roles : List RoleRow)
    (rd : RoleDefinition)
    (h : (roles.map (fun r => (r.organizationId, r.name))).Nodup) :
    ((syncRole org T roles rd).map (fun r => (r.organizationId, r.name))).Nodup := by
  unfold syncRole
  split
  case isTrue hany =>
    rw [List.map_map]
    have : ∀ r ∈ roles,
        ((fun r => (r.organizationId, r.name)) ∘
          (fun r => if roleKeyMatch org rd.name r then roleTarget org T rd else r)) r
          = (fun r : RoleRow => (r.organizationId, r.name)) r := by
      intro r hr
      simp only [Function.comp_apply]
      by_cases hm : roleKeyMatch org rd.name r = true
      · rw [if_pos hm]
        simp only [roleKeyMatch, Bool.and_eq_true, decide_eq_true_eq] at hm
        simp [roleTarget, hm.1, hm.2]
      · rw [if_neg hm]
    rw [List.map_congr_left this]
    exact h
  case isFalse hany =>
    simp only [List.map_append]
    rw [List.nodup_append]
    refine ⟨h, by simp, ?_⟩
    intro k hk hk₂
    have hkt : k = (org, rd.name) := by simpa [roleTarget] using hk₂
    subst hkt
    obtain ⟨r, hr, hkey⟩ := List.mem_map.mp hk
    rw [Bool.not_eq_true, List.any_eq_false] at hany
    have h1 : r.organizationId = org := congrArg Prod.fst hkey
    have h2 : r.name = rd.name := congrArg Prod.snd hkey
    exact (hany r hr) (by simp [roleKeyMatch, h1, h2])

theorem foldl_syncRole_keys_nodup (org : Nat) (T : List PermRow)
    (l : List RoleDefinition) (roles : List RoleRow)
    (h : (roles.map (fun r => (r.organizationId, r.name))).Nodup) :
    ((l.foldl (syncRole org T) roles).map (fun r => (r.organizationId, r.name))).Nodup := by
  induction l generalizing roles with
  | nil => exact h
  | cons hd tl ih =>
    simp only [List.foldl_cons]
    exact ih (syncRole org T roles hd) (syncRole_keys_nodup org T roles hd h)

theorem sync_permissions_proj (org : Nat) (s : RbacState) :
    (sync_organization_roles org s).permissions = syncPermissions s.permissions := by
  simp [sync_organization_roles]

theorem sync_roles_proj (org : Nat) (s : RbacState) :
    (sync_organization_roles org s).roles
      = ROLE_DEFINITIONS.foldl (syncRole org (syncPermissions s.permissions)) s.roles := by
  simp [sync_organization_roles]

theorem RbacState.ext_eq {s₁ s₂ : RbacState}
    (h1 : s₁.permissions = s₂.permissions) (h2 : s₁.roles = s₂.roles) : s₁ = s₂ := by
  cases s₁
  cases s₂
  cases h1
  cases h2
  rfl

/-- C3: the synchronizer is idempotent — a second run on the same
organization changes nothing — and, under the database unique constraints,
its result keeps permission codenames and (organization, name) role keys
free of duplicates. -/
theorem sync_idempotent (s : RbacState) (org : Nat)
    (hp : permsUnique s) (hr : rolesUnique s) :
    sync_organization_roles org (sync_organization_roles org s)
        = sync_organization_roles org s
    ∧ permsUnique (sync_organization_roles org s)
    ∧ rolesUnique (sync_organization_roles org s) := by
  refine ⟨?_, ?_, ?_⟩
  · have hperm : (sync_organization_roles org (sync_organization_roles org s)).permissions
        = (sync_organization_roles org s).permissions := by
      rw [sync_permissions_proj, sync_permissions_proj]
      exact syncPermissions_fixpoint s.permissions
    have hroles : (sync_organization_roles org (sync_organization_roles org s)).roles
        = (sync_organization_roles org s).roles := by
      rw [sync_roles_proj org (sync_organization_roles org s), sync_permissions_proj,
        syncPermissions_fixpoint, sync_roles_proj]
      exact foldl_syncRole_noop org (syncPermissions s.permissions) ROLE_DEFINITIONS _
        (foldl_syncRole_ok org (syncPermissions s.permissions) ROLE_DEFINITIONS s.roles
          role_definition_names_nodup)
    exact RbacState.ext_eq hperm hroles
  · unfold permsUnique
    rw [sync_permissions_proj]
    exact foldl_upsert_nodup PERMISSION_DEFINITIONS s.permissions hp
  · unfold rolesUnique
    rw [sync_roles_proj]
    exact foldl_syncRole_keys_nodup org (syncPermissions s.permissions)
      ROLE_DEFINITIONS s.roles hr

/-- C3 witness: `sync_idempotent` at the empty state. -/
theorem sync_idempotent_witness :
    permsUnique ⟨[], []⟩ ∧ rolesUnique ⟨[], []⟩
    ∧ sync_organization_roles 0 (sync_organization_roles 0 ⟨[], []⟩)
        = sync_organization_roles 0 ⟨[], []⟩ :=
  ⟨by simp [permsUnique], by simp [rolesUnique],
    (sync_idempotent ⟨[], []⟩ 0 (by simp [permsUnique]) (by simp [rolesUnique])).1⟩

theorem canonicalRolePerms_mem (T : List PermRow) (wanted : List String) (c : String) :
    c ∈ canonicalRolePerms T wanted ↔ c ∈ T.map PermRow.codename ∧ c ∈ wanted := by
  unfold canonicalRolePerms
  constructor
  · intro h
    obtain ⟨p, hp, hpc⟩ := List.mem_map.mp h
    rw [List.mem_filter] at hp
    exact ⟨hpc ▸ List.mem_map_of_mem PermRow.codename hp.1,
      hpc ▸ List.elem_iff.mp hp.2⟩
  · rintro ⟨hm, hw⟩
    obtain ⟨p, hp, hpc⟩ := List.mem_map.mp hm
    refine List.mem_map.mpr ⟨p, List.mem_filter.mpr ⟨hp, ?_⟩, hpc⟩
    exact List.elem_iff.mpr (hpc ▸ hw)

theorem roleTarget_is_custom (org : Nat) (T : List PermRow) (rd : RoleDefinition) :
    (roleTarget org T rd).is_custom = rd.is_custom := rfl

theorem roleTarget_perms (org : Nat) (T : List PermRow) (rd : RoleDefinition) :
    (roleTarget org T rd).perms = canonicalRolePerms T rd.permissions := rfl

theorem role_perms_in_catalog :
    ∀ rd ∈ ROLE_DEFINITIONS, ∀ c ∈ rd.permissions,
      PERMISSION_DEFINITIONS.any (fun d => d.codename = c) = true := by
  decide

/-- C4: after a synchronizer run, every role row carrying a canonical
(organization, name) key has exactly the canonical `is_custom` flag and a
permission set equal (as a set of codenames) to the catalog definition —
whatever its permission set and flag were before the run. -/
theorem sync_replaces_system_role_state (s : RbacState) (org : Nat)
    (rd : RoleDefinition) (hrd : rd ∈ ROLE_DEFINITIONS) (r : RoleRow)
    (hmem : r ∈ (sync_organization_roles org s).roles)
    (horg : r.organizationId = org) (hname : r.name = rd.name) :
    r.is_custom = rd.is_custom ∧ ∀ c, (c ∈ r.perms ↔ c ∈ rd.permissions) := by
  have hok : RoleOk org (syncPermissions s.permissions) rd
      (sync_organization_roles org s).roles := by
    rw [sync_roles_proj]
    exact foldl_syncRole_ok org (syncPermissions s.permissions) ROLE_DEFINITIONS s.roles
      role_definition_names_nodup rd hrd
  have hkey : roleKeyMatch org rd.name r = true := by
    simp [roleKeyMatch, horg, hname]
  have hreq := hok.2 r hmem hkey
  subst hreq
  refine ⟨roleTarget_is_custom org _ rd, ?_⟩
  intro c
  rw [roleTarget_perms, canonicalRolePerms_mem]
  constructor
  · exact fun h => h.2
  · intro hw
    refine ⟨?_, hw⟩
    have hcat := role_perms_in_catalog rd hrd c hw
    rw [List.any_eq_true] at hcat
    obtain ⟨d, hd, hdc⟩ := hcat
    simp only [decide_eq_true_eq] at hdc
    exact hdc ▸ syncPermissions_covers s.permissions d hd

/-- C4 witness: in a fresh organization, a system role previously seeded
with a bogus permission set and flag ends up canonical. -/
theorem sync_replaces_system_role_state_witness :
    (⟨"IT / Security", ["security.manage", "org.manage_roles", "org.view_audit_logs"], false⟩
        : RoleDefinition) ∈ ROLE_DEFINITIONS
    ∧ (⟨0, "IT / Security", false,
          ["org.manage_roles", "org.view_audit_logs", "security.manage"]⟩ : RoleRow)
        ∈ (sync_organization_roles 0 ⟨[], [⟨0, "IT / Security", true, ["matter.view_all"]⟩]⟩).roles
    ∧ ("matter.view_all"
        ∈ (⟨"IT / Security", ["security.manage", "org.manage_roles", "org.view_audit_logs"], false⟩
            : RoleDefinition).permissions
        ↔ "matter.view_all"
        ∈ (⟨0, "IT / Security", false,
              ["org.manage_roles", "org.view_audit_logs", "security.manage"]⟩ : RoleRow).perms) := by
  refine ⟨by decide, by decide, ?_⟩
  exact ((sync_replaces_system_role_state
    ⟨[], [⟨0, "IT / Security", true, ["matter.view_all"]⟩]⟩ 0
    ⟨"IT / Security", ["security.manage", "org.manage_roles", "org.view_audit_logs"], false⟩
    (by decide)
    ⟨0, "IT / Security", false, ["org.manage_roles", "org.view_audit_logs", "security.manage"]⟩
    (by decide) rfl rfl).2 "matter.view_all").symm

theorem filter_map_update_eq {p : RoleRow → Bool} {f : RoleRow → RoleRow}
    (roles : List RoleRow)
    (hf : ∀ r ∈ roles, (p r = false ∧ p (f r) = false) ∨ f r = r) :
    (roles.map f).filter p = roles.filter p := by
  induction roles with
  | nil => rfl
  | cons hd tl ih =>
    simp only [List.map_cons, List.filter_cons]
    rcases hf hd (List.mem_cons_self hd tl) with ⟨h1, h2⟩ | heq
    · rw [h1, h2]
      exact ih (fun r hr => hf r (List.mem_cons_of_mem hd hr))
    · rw [heq]
      cases hp : p hd <;>
        simp [ih (fun r hr => hf r (List.mem_cons_of_mem hd hr))]

theorem syncRole_filter_noncanonical (org : Nat) (T : List PermRow)
    (roles : List RoleRow) (rd : RoleDefinition)
    (hc : (ROLE_DEFINITIONS.map RoleDefinition.name).contains rd.name = true) :
    (syncRole org T roles rd).filter
        (fun r => !((ROLE_DEFINITIONS.map RoleDefinition.name).contains r.name))
      = roles.filter
        (fun r => !((ROLE_DEFINITIONS.map RoleDefinition.name).contains r.name)) := by
  have htarget :
      (!((ROLE_DEFINITIONS.map RoleDefinition.name).contains (roleTarget org T rd).name))
        = false := by
    rw [show (roleTarget org T rd).name = rd.name from rfl, hc]
    rfl
  unfold syncRole
  split
  case isTrue hany =>
    apply filter_map_update_eq
    intro r hr
    by_cases hm : roleKeyMatch org rd.name r = true
    · refine Or.inl ⟨?_, ?_⟩
      · show (!((ROLE_DEFINITIONS.map RoleDefinition.name).contains r.name)) = false
        simp only [roleKeyMatch, Bool.and_eq_true, decide_eq_true_eq] at hm
        rw [hm.2, hc]
        rfl
      · rw [if_pos hm]
        exact htarget
    · exact Or.inr (if_neg hm)
  case isFalse hany =>
    rw [List.filter_append]
    have hsing : List.filter
        (fun r => !((ROLE_DEFINITIONS.map RoleDefinition.name).contains r.name))
        [roleTarget org T rd] = [] := by
      rw [List.filter_cons, htarget]
      simp
    rw [hsing, List.append_nil]

theorem foldl_syncRole_filter_noncanonical (org : Nat) (T : List PermRow)
    (l : List RoleDefinition) (roles : List RoleRow)
    (hl : ∀ rd ∈ l, (ROLE_DEFINITIONS.map RoleDefinition.name).contains rd.name = true) :
    (l.foldl (syncRole org T) roles).filter
        (fun r => !((ROLE_DEFINITIONS.map RoleDefinition.name).contains r.name))
      = roles.filter
        (fun r => !((ROLE_DEFINITIONS.map RoleDefinition.name).contains r.name)) := by
  induction l generalizing roles with
  | nil => rfl
  | cons hd tl ih =>
    simp only [List.foldl_cons]
    rw [ih (syncRole org T roles hd) (fun rd hrd => hl rd (List.mem_cons_of_mem hd hrd)),
      syncRole_filter_noncanonical org T roles hd (hl hd (List.mem_cons_self hd tl))]

/-- C6: roles whose name is not among the canonical role definitions —
which is what a custom, administrator-defined role is, since the unique
(organization, name) constraint keeps custom roles off the canonical
names — are untouched by any number of synchronizer runs: their name,
`is_custom` flag and permission set all survive unchanged. -/
theorem sync_preserves_custom_roles (s : RbacState) (org : Nat) (n : Nat) :
    (((sync_organization_roles org)^[n] s).roles.filter
        (fun r => !((ROLE_DEFINITIONS.map RoleDefinition.name).contains r.name)))
      = s.roles.filter
        (fun r => !((ROLE_DEFINITIONS.map RoleDefinition.name).contains r.name)) := by
  induction n with
  | zero => rfl
  | succ k ih =>
    rw [Function.iterate_succ_apply']
    rw [sync_roles_proj]
    rw [foldl_syncRole_filter_noncanonical]
    · exact ih
    · intro rd hrd
      exact List.elem_iff.mpr (List.mem_map_of_mem RoleDefinition.name hrd)

theorem permission_definition_codenames_nodup :
    (PERMISSION_DEFINITIONS.map PermissionDefinition.codename).Nodup := by
  decide

theorem foldl_upsert_creates (l : List PermissionDefinition) (P : List PermRow)
    (hnd : (l.map PermissionDefinition.codename).Nodup) :
    ∀ d ∈ l, (∀ p ∈ P, p.codename ≠ d.codename) →
      (⟨d.codename, d.label, d.description⟩ : PermRow) ∈ l.foldl upsertPermission P := by
  induction l generalizing P with
  | nil => intro d hd; simp at hd
  | cons hd tl ih =>
    intro d hmem habs
    simp only [List.map_cons, List.nodup_cons] at hnd
    rcases List.mem_cons.mp hmem with rfl | htl
    · simp only [List.foldl_cons]
      have hup : upsertPermission P d = P ++ [⟨d.codename, d.label, d.description⟩] := by
        unfold upsertPermission
        rw [if_neg]
        rw [Bool.not_eq_true, List.any_eq_false]
        intro p hp
        simp [habs p hp]
      obtain ⟨t, ht⟩ := foldl_upsert_append tl (upsertPermission P d)
      rw [ht, hup]
      exact List.mem_append_left _ (List.mem_append_right _ (by simp))
    · simp only [List.foldl_cons]
      refine ih (upsertPermission P hd) hnd.2 d htl ?_
      intro p hp
      unfold upsertPermission at hp
      split at hp
      · exact habs p hp
      · rcases List.mem_append.mp hp with hin | hnew
        · exact habs p hin
        · have : p = ⟨hd.codename, hd.label, hd.description⟩ := by simpa using hnew
          subst this
          intro heq
          have heq2 : hd.codename = d.codename := heq
          exact hnd.1
            (by rw [heq2]; exact List.mem_map_of_mem PermissionDefinition.codename htl)

/-- C5 counterexample: the claim fails as stated. Starting from a state
whose `org.manage` Permission row carries a stale label and description,
a synchronizer run leaves that row unchanged — it is not updated to the
canonical label of the catalog entry — because the sync uses
`get_or_create`, whose `defaults` are ignored for existing rows. -/
theorem sync_does_not_update_existing_permission_rows :
    ((sync_organization_roles 0 ⟨[⟨"org.manage", "OLD", "OLD"⟩], []⟩).permissions.filter
        (fun p => p.codename = "org.manage")) = [⟨"org.manage", "OLD", "OLD"⟩]
    ∧ (⟨"org.manage", "Manage organization settings",
          "Update organization profile and configuration."⟩ : PermissionDefinition)
        ∈ PERMISSION_DEFINITIONS
    ∧ ("OLD" : String) ≠ "Manage organization settings" := by
  refine ⟨by decide, by decide, by decide⟩

/-- C5 (amended): a synchronizer run creates the Permission row with the
canonical codename, label and description when its codename is absent
globally; Permission rows already present are left entirely unchanged (the
run only ever appends to the Permission table — labels and descriptions of
existing rows are not updated). -/
theorem sync_permission_create_only (s : RbacState) (org : Nat) :
    (∃ created, (sync_organization_roles org s).permissions = s.permissions ++ created)
    ∧ (∀ d ∈ PERMISSION_DEFINITIONS,
        (∀ p ∈ s.permissions, p.codename ≠ d.codename) →
        (⟨d.codename, d.label, d.description⟩ : PermRow)
          ∈ (sync_organization_roles org s).permissions) := by
  constructor
  · rw [sync_permissions_proj]
    exact foldl_upsert_append PERMISSION_DEFINITIONS s.permissions
  · intro d hd habs
    rw [sync_permissions_proj]
    exact foldl_upsert_creates PERMISSION_DEFINITIONS s.permissions
      permission_definition_codenames_nodup d hd habs

/-- C5 witness: `sync_permission_create_only` on the empty table creates
the canonical `org.manage` row. -/
theorem sync_permission_create_only_witness :
    (⟨"org.manage", "Manage organization settings",
        "Update organization profile and configuration."⟩ : PermissionDefinition)
      ∈ PERMISSION_DEFINITIONS
    ∧ (⟨"org.manage", "Manage organization settings",
          "Update organization profile and configuration."⟩ : PermRow)
        ∈ (sync_organization_roles 0 ⟨[], []⟩).permissions :=
  ⟨by decide,
    (sync_permission_create_only ⟨[], []⟩ 0).2
      ⟨"org.manage", "Manage organization settings",
        "Update organization profile and configuration."⟩
      (by decide) (by intro p hp; simp at hp)⟩

end LegalTech
